import Mathlib

/-!
Shallow embedding of src/lib/core-net/wsi-timeout.c: the per-thread coarse
timeout registry, the per-thread high-resolution deadline queue with its
sweep, and the virtual-host timed-callback list.

Modelling conventions.  A connection (struct lws) is identified by a Nat id
standing for the wsi pointer.  The intrusive dll2 lists are modelled as Lean
lists of ids; the hrtimer list stores (id, deadline) pairs, where the second
component models the read of w->pending_timer for a node that is on the
list: that field is written only by lws_set_timer_usecs, which unlinks the
node first, so for a linked node it always equals the value stored at
insertion time.  Clock reads (lws_now_usecs, time) are passed as explicit
parameters.  lws_usec_t and time_t are modelled as Int.  The protocol
pointer test (wsi->protocol non-NULL) and the expiry callback result are
modelled as Bool-valued functions of the connection id.
-/

/-- Sentinel delay value requesting cancellation of a pending hrtimer.
Modelled from the spec: LWS_SET_TIMER_USEC_CANCEL is defined in the public
header, which is not under src/; only its role as a distinguished sentinel
compared with == matters here. -/
def LWS_SET_TIMER_USEC_CANCEL : Int := -1

/-- Per-connection fields of struct lws that wsi-timeout.c reads or writes. -/
structure Wsi where
  pending_timer : Int
  hasProtocol : Bool
  pending_timeout : Nat
  pending_timeout_limit : Int
  pending_timeout_set : Int
deriving DecidableEq, Repr

/-- The per-thread context (struct lws_context_per_thread) state touched by
wsi-timeout.c: the per-connection fields, the hrtimer deadline queue
(dll_hrtimer_head, head first) and the coarse timeout registry
(dll_timeout_owner, head first). -/
structure PtState where
  wsi : Nat → Wsi
  dll_hrtimer_head : List (Nat × Int)
  dll_timeout_owner : List Nat

/-- Default field values for a fresh connection. -/
def initWsi : Wsi := ⟨0, true, 0, 0, 0⟩

/-- A per-thread context with both lists empty. -/
def emptyPt : PtState := ⟨fun _ => initWsi, [], []⟩

/-- The sorted-insertion scan of lws_set_timer_usecs: walk from the head and
add the new entry before the first entry whose pending_timer is greater than
or equal to the new deadline; if none qualifies, add at the tail. -/
def hrtimer_insert (e : Nat × Int) : List (Nat × Int) → List (Nat × Int)
  | [] => [e]
  | w :: ws => if e.2 ≤ w.2 then e :: w :: ws else w :: hrtimer_insert e ws

/-- lws_set_timer_usecs (the lock-free core of it): unlink the connection
from the hrtimer list; if the delay is the cancel sentinel, stop; otherwise
store now + us into pending_timer and insert sorted by deadline. -/
def lws_set_timer_usecs (now : Int) (id : Nat) (us : Int) (st : PtState) : PtState :=
  let q1 := st.dll_hrtimer_head.filter (fun e => e.1 ≠ id)
  if us = LWS_SET_TIMER_USEC_CANCEL then
    { st with dll_hrtimer_head := q1 }
  else
    { st with
      wsi := fun i => if i = id then { st.wsi i with pending_timer := now + us }
                      else st.wsi i,
      dll_hrtimer_head := hrtimer_insert (id, now + us) q1 }

/-- One deadline-schedule call: the clock value at the call, the target
connection and the requested delay (possibly the cancel sentinel). -/
structure SchedOp where
  now : Int
  id : Nat
  us : Int
deriving DecidableEq, Repr

/-- Apply a sequence of lws_set_timer_usecs calls in order. -/
def applySched (ops : List SchedOp) (st : PtState) : PtState :=
  ops.foldl (fun s o => lws_set_timer_usecs o.now o.id o.us s) st

/-- Result of one hrtimer sweep: the remaining queue, the fired entries
(each paired with the queue contents at the instant its callback was
invoked), the due entries silently dropped because the connection had no
protocol, and the connections handed to the external close operation
because their callback returned failure. -/
structure HrtimerSweep where
  queue : List (Nat × Int)
  fired : List (Nat × List (Nat × Int))
  dropped : List Nat
  closed : List Nat
deriving DecidableEq, Repr

/-- The sweep loop of lws_hrtimer_service: walk from the head; stop at the
first entry whose pending_timer is in the future; for each due entry, first
cancel its hrtimer membership, then, if the connection has a protocol,
invoke the expiry callback, delegating the connection to the external
close-and-free operation when the callback reports failure. -/
def hrtimer_sweep (proto cb : Nat → Bool) (t : Int) : List (Nat × Int) → HrtimerSweep
  | [] => ⟨[], [], [], []⟩
  | (i, d) :: ws =>
    if t < d then ⟨(i, d) :: ws, [], [], []⟩
    else
      let r := hrtimer_sweep proto cb t ws
      if proto i then
        if cb i then ⟨r.queue, (i, ws) :: r.fired, r.dropped, i :: r.closed⟩
        else ⟨r.queue, (i, ws) :: r.fired, r.dropped, r.closed⟩
      else ⟨r.queue, r.fired, i :: r.dropped, r.closed⟩

/-- The post-sweep return computation of lws_hrtimer_service, using the
second clock read now2: 0 when nothing is pending, 1 when the new head is
already due, otherwise the distance to the new head. -/
def hrtimer_next_wake (now2 : Int) : List (Nat × Int) → Int
  | [] => 0
  | (_, d) :: _ => if d ≤ now2 then 1 else d - now2

/-- lws_hrtimer_service: run the sweep at time t over the queue, then
compute the microseconds-until-next-event estimate from a fresh clock read
now2. -/
def lws_hrtimer_service (proto cb : Nat → Bool) (t now2 : Int)
    (q : List (Nat × Int)) : HrtimerSweep × Int :=
  let r := hrtimer_sweep proto cb t q
  (r, hrtimer_next_wake now2 r.queue)

/-- lws_remove_from_timeout_list: unlink the connection from the coarse
timeout registry (a no-op when absent). -/
def lws_remove_from_timeout_list (id : Nat) (st : PtState) : PtState :=
  { st with dll_timeout_owner := st.dll_timeout_owner.filter (fun i => i ≠ id) }

/-- lws_set_timeout (the lock-free core of it): record the limit, the
current wall-clock time and the reason on the connection, unlink it from
the registry, and, when the reason is nonzero, relink it at the registry
head.  reason 0 is NO_PENDING_TIMEOUT. -/
def lws_set_timeout (nowWall : Int) (id reason : Nat) (secs : Int)
    (st : PtState) : PtState :=
  let st1 := { st with
    wsi := fun i => if i = id then
        { st.wsi i with
          pending_timeout_limit := secs,
          pending_timeout_set := nowWall,
          pending_timeout := reason }
      else st.wsi i }
  let st2 := { st1 with
    dll_timeout_owner := st1.dll_timeout_owner.filter (fun i => i ≠ id) }
  if reason = 0 then st2
  else { st2 with dll_timeout_owner := id :: st2.dll_timeout_owner }

/-- lws_timed_callback_remove: walk the vhost's singly-linked
timed_vh_protocol_list, comparing each node pointer with the handle; on the
first identity match unlink the node, free it and return 0; return 1 when
the handle is not found.  Entries are their ids (pointer identity is id
equality). -/
def lws_timed_callback_remove (p : Nat) : List Nat → List Nat × Nat
  | [] => ([], 1)
  | x :: xs =>
    if x = p then (xs, 0)
    else
      let r := lws_timed_callback_remove p xs
      (x :: r.1, r.2)

/-- The deadline queue sorted by non-decreasing pending_timer. -/
def QueueSorted (l : List (Nat × Int)) : Prop :=
  l.Pairwise (fun e f => e.2 ≤ f.2)

/-! ### Helper lemmas shared by several results -/

theorem mem_hrtimer_insert {f e : Nat × Int} {l : List (Nat × Int)}
    (h : f ∈ hrtimer_insert e l) : f = e ∨ f ∈ l := by
  induction l with
  | nil => simpa [hrtimer_insert] using h
  | cons w ws ih =>
    by_cases hc : e.2 ≤ w.2
    · simp only [hrtimer_insert, if_pos hc, List.mem_cons] at h ⊢
      tauto
    · simp only [hrtimer_insert, if_neg hc, List.mem_cons] at h
      rcases h with h | h
      · exact Or.inr (by simp [h])
      · rcases ih h with h | h
        · exact Or.inl h
        · exact Or.inr (List.mem_cons_of_mem _ h)

theorem hrtimer_insert_sorted (e : Nat × Int) (l : List (Nat × Int))
    (h : QueueSorted l) : QueueSorted (hrtimer_insert e l) := by
  induction l with
  | nil => simp [hrtimer_insert, QueueSorted]
  | cons w ws ih =>
    rcases List.pairwise_cons.mp h with ⟨hw, hws⟩
    by_cases hc : e.2 ≤ w.2
    · simp only [hrtimer_insert, if_pos hc]
      refine List.pairwise_cons.mpr ⟨?_, h⟩
      intro f hf
      rcases List.mem_cons.mp hf with hf | hf
      · exact hf ▸ hc
      · exact le_trans hc (hw f hf)
    · simp only [hrtimer_insert, if_neg hc]
      refine List.pairwise_cons.mpr ⟨?_, ih hws⟩
      intro f hf
      rcases mem_hrtimer_insert hf with hf | hf
      · exact hf ▸ le_of_lt (lt_of_not_le hc)
      · exact hw f hf

theorem hrtimer_sweep_queue (proto cb : Nat → Bool) (t : Int)
    (q : List (Nat × Int)) :
    (hrtimer_sweep proto cb t q).queue
      = q.dropWhile (fun e => decide (e.2 ≤ t)) := by
  induction q with
  | nil => rfl
  | cons e ws ih =>
    obtain ⟨i, d⟩ := e
    by_cases hc : t < d
    · have hd : decide (d ≤ t) = false := by simp; omega
      simp [hrtimer_sweep, if_pos hc, List.dropWhile_cons, hd]
    · have hd : decide (d ≤ t) = true := by simp; omega
      by_cases hp : proto i
      · by_cases hcb : cb i
        · simp [hrtimer_sweep, if_neg hc, hp, hcb, List.dropWhile_cons, hd, ih]
        · simp [hrtimer_sweep, if_neg hc, hp, hcb, List.dropWhile_cons, hd, ih]
      · simp [hrtimer_sweep, if_neg hc, hp, List.dropWhile_cons, hd, ih]

theorem hrtimer_sweep_fired (proto cb : Nat → Bool) (t : Int)
    (q : List (Nat × Int)) :
    (hrtimer_sweep proto cb t q).fired.map Prod.fst
      = ((q.takeWhile (fun e => decide (e.2 ≤ t))).map Prod.fst).filter proto := by
  induction q with
  | nil => rfl
  | cons e ws ih =>
    obtain ⟨i, d⟩ := e
    by_cases hc : t < d
    · have hd : decide (d ≤ t) = false := by simp; omega
      simp [hrtimer_sweep, if_pos hc, List.takeWhile_cons, hd]
    · have hd : decide (d ≤ t) = true := by simp; omega
      by_cases hp : proto i
      · by_cases hcb : cb i
        · simp [hrtimer_sweep, if_neg hc, hp, hcb, List.takeWhile_cons, hd, ih,
                List.filter_cons]
        · simp [hrtimer_sweep, if_neg hc, hp, hcb, List.takeWhile_cons, hd, ih,
                List.filter_cons]
      · simp [hrtimer_sweep, if_neg hc, hp, List.takeWhile_cons, hd, ih,
              List.filter_cons]

theorem hrtimer_sweep_dropped (proto cb : Nat → Bool) (t : Int)
    (q : List (Nat × Int)) :
    (hrtimer_sweep proto cb t q).dropped
      = ((q.takeWhile (fun e => decide (e.2 ≤ t))).map Prod.fst).filter
          (fun i => !proto i) := by
  induction q with
  | nil => rfl
  | cons e ws ih =>
    obtain ⟨i, d⟩ := e
    by_cases hc : t < d
    · have hd : decide (d ≤ t) = false := by simp; omega
      simp [hrtimer_sweep, if_pos hc, List.takeWhile_cons, hd]
    · have hd : decide (d ≤ t) = true := by simp; omega
      by_cases hp : proto i
      · by_cases hcb : cb i
        · simp [hrtimer_sweep, if_neg hc, hp, hcb, List.takeWhile_cons, hd, ih,
                List.filter_cons]
        · simp [hrtimer_sweep, if_neg hc, hp, hcb, List.takeWhile_cons, hd, ih,
                List.filter_cons]
      · simp [hrtimer_sweep, if_neg hc, hp, List.takeWhile_cons, hd, ih,
              List.filter_cons]

theorem hrtimer_sweep_closed (proto cb : Nat → Bool) (t : Int)
    (q : List (Nat × Int)) :
    (hrtimer_sweep proto cb t q).closed
      = ((hrtimer_sweep proto cb t q).fired.map Prod.fst).filter cb := by
  induction q with
  | nil => rfl
  | cons e ws ih =>
    obtain ⟨i, d⟩ := e
    by_cases hc : t < d
    · simp [hrtimer_sweep, if_pos hc]
    · by_cases hp : proto i
      · by_cases hcb : cb i
        · simp [hrtimer_sweep, if_neg hc, hp, hcb, ih, List.filter_cons]
        · simp [hrtimer_sweep, if_neg hc, hp, hcb, ih, List.filter_cons]
      · simp [hrtimer_sweep, if_neg hc, hp, ih]

theorem hrtimer_insert_sublist_of_mem (b : Nat) (d' : Int) (a : Nat) (d : Int)
    (l : List (Nat × Int)) (hmem : (a, d) ∈ l) (hle : d' ≤ d) :
    List.Sublist [b, a] ((hrtimer_insert (b, d') l).map Prod.fst) := by
  induction l with
  | nil => cases hmem
  | cons w ws ih =>
    by_cases hc : d' ≤ w.2
    · simp only [hrtimer_insert, if_pos hc, List.map_cons]
      refine List.Sublist.cons₂ b ?_
      have ha : a ∈ (w :: ws).map Prod.fst :=
        List.mem_map_of_mem Prod.fst hmem
      exact List.singleton_sublist.mpr ha
    · rcases List.mem_cons.mp hmem with hw | hw
      · exfalso
        apply hc
        rw [← hw]
        exact hle
      · simp only [hrtimer_insert, if_neg hc, List.map_cons]
        exact List.Sublist.cons w.1 (ih hw)

theorem mem_takeWhile_of_sorted_due {i : Nat} {d t : Int}
    {q : List (Nat × Int)} (hs : QueueSorted q) (hmem : (i, d) ∈ q)
    (hdue : d ≤ t) :
    (i, d) ∈ q.takeWhile (fun e => decide (e.2 ≤ t)) := by
  induction q with
  | nil => cases hmem
  | cons w ws ih =>
    rcases List.pairwise_cons.mp hs with ⟨hw, hws⟩
    rcases List.mem_cons.mp hmem with hm | hm
    · have hwt : decide (w.2 ≤ t) = true := by
        subst hm; simp; omega
      simp only [List.takeWhile_cons, hwt, if_true]
      exact hm ▸ List.mem_cons_self _ _
    · have hwd : w.2 ≤ d := hw (i, d) hm
      have hwt : decide (w.2 ≤ t) = true := by simp; omega
      simp only [List.takeWhile_cons, hwt, if_true]
      exact List.mem_cons_of_mem w (ih hws hm)

theorem set_timer_usecs_sorted (now : Int) (id : Nat) (us : Int) (st : PtState)
    (h : QueueSorted st.dll_hrtimer_head) :
    QueueSorted (lws_set_timer_usecs now id us st).dll_hrtimer_head := by
  unfold lws_set_timer_usecs
  by_cases hc : us = LWS_SET_TIMER_USEC_CANCEL
  · simpa [hc] using h.filter _
  · simp only [if_neg hc]
    exact hrtimer_insert_sorted _ _ (h.filter _)

theorem hrtimer_sweep_cb_invariant (proto cb cb' : Nat → Bool) (t : Int)
    (q : List (Nat × Int)) :
    (hrtimer_sweep proto cb t q).queue = (hrtimer_sweep proto cb' t q).queue ∧
    (hrtimer_sweep proto cb t q).fired = (hrtimer_sweep proto cb' t q).fired ∧
    (hrtimer_sweep proto cb t q).dropped
      = (hrtimer_sweep proto cb' t q).dropped := by
  induction q with
  | nil => exact ⟨rfl, rfl, rfl⟩
  | cons e ws ih =>
    obtain ⟨i, d⟩ := e
    by_cases hc : t < d
    · simp [hrtimer_sweep, if_pos hc]
    · by_cases hp : proto i
      · by_cases hcb : cb i <;> by_cases hcb' : cb' i <;>
          simp [hrtimer_sweep, if_neg hc, hp, hcb, hcb', ih.1, ih.2.1, ih.2.2]
      · simp [hrtimer_sweep, if_neg hc, hp, ih.1, ih.2.1, ih.2.2]

theorem next_wake_contract (now2 : Int) (l : List (Nat × Int)) :
    (hrtimer_next_wake now2 l = 0 ↔ l = []) ∧
    (l ≠ [] → 0 < hrtimer_next_wake now2 l) ∧
    (∀ i d rest, l = (i, d) :: rest → d ≤ now2 →
      hrtimer_next_wake now2 l = 1) := by
  cases l with
  | nil => simp [hrtimer_next_wake]
  | cons e rest =>
    obtain ⟨i, d⟩ := e
    by_cases hc : d ≤ now2
    · simp [hrtimer_next_wake, hc]
    · refine ⟨by simp [hrtimer_next_wake, hc]; omega, ?_, ?_⟩
      · intro _
        simp [hrtimer_next_wake, hc]
        omega
      · intro i' d' rest' heq hle
        rw [List.cons.injEq, Prod.mk.injEq] at heq
        exact absurd (heq.1.2 ▸ hle) hc

/-! ### Claims -/

/-- C1, counterexample: the claim says that scheduling connection 1 and then
connection 2 with identical resulting deadlines leaves 1 before 2 in the
queue.  On the code, scheduling 1 then 2, both with delay 100 at clock 0,
leaves the queue ids as (2, 1): the later-scheduled connection goes first,
so the claim is false at this input. -/
theorem c1_tie_break_counterexample :
    (lws_set_timer_usecs 0 2 100 (lws_set_timer_usecs 0 1 100
        emptyPt)).dll_hrtimer_head.map Prod.fst = [2, 1] ∧
    ¬ (lws_set_timer_usecs 0 2 100 (lws_set_timer_usecs 0 1 100
        emptyPt)).dll_hrtimer_head.map Prod.fst = [1, 2] := by
  decide

/-- C1, amended: scheduling A first and B second into the same deadline
queue with identical resulting absolute deadlines and no intervening sweep
leaves B before A in the queue: the insertion scan places the new entry
before the first existing entry with an equal-or-later pending_timer, so
equal-deadline entries fire in reverse insertion order, the most recently
scheduled first. -/
theorem c1_equal_deadline_b_before_a (st : PtState) (a b : Nat)
    (d now us : Int) (hab : b ≠ a) (hmem : (a, d) ∈ st.dll_hrtimer_head)
    (hus : us ≠ LWS_SET_TIMER_USEC_CANCEL) (hd : now + us = d) :
    List.Sublist [b, a]
      ((lws_set_timer_usecs now b us st).dll_hrtimer_head.map Prod.fst) := by
  unfold lws_set_timer_usecs
  simp only [if_neg hus]
  refine hrtimer_insert_sublist_of_mem b (now + us) a d _ ?_ (le_of_eq hd)
  refine List.mem_filter.mpr ⟨hmem, ?_⟩
  simpa using hab.symm

/-- Witness for c1_equal_deadline_b_before_a at the counterexample input. -/
theorem c1_equal_deadline_b_before_a_witness :
    List.Sublist [2, 1]
      ((lws_set_timer_usecs 0 2 100 (lws_set_timer_usecs 0 1 100
        emptyPt)).dll_hrtimer_head.map Prod.fst) :=
  c1_equal_deadline_b_before_a _ 1 2 100 0 100 (by decide) (by decide)
    (by decide) (by decide)

/-- The queue obtained by scheduling connections 1, 2, 3 with delays 100,
200, 300 microseconds at clock 0, starting from an empty per-thread
context. -/
def c2_state : PtState :=
  lws_set_timer_usecs 0 3 300 (lws_set_timer_usecs 0 2 200
    (lws_set_timer_usecs 0 1 100 emptyPt))

/-- C2: sweeping the queue with deadlines 100, 200, 300 at now = 250 fires
exactly connections 1 and 2, in order, drops and closes nothing, leaves
only the 300-deadline entry in the queue, and returns 50. -/
theorem c2_sweep_completeness :
    (lws_hrtimer_service (fun i => (c2_state.wsi i).hasProtocol)
        (fun _ => false) 250 250 c2_state.dll_hrtimer_head).1.fired.map
        Prod.fst = [1, 2] ∧
    (lws_hrtimer_service (fun i => (c2_state.wsi i).hasProtocol)
        (fun _ => false) 250 250 c2_state.dll_hrtimer_head).1.queue
        = [(3, 300)] ∧
    (lws_hrtimer_service (fun i => (c2_state.wsi i).hasProtocol)
        (fun _ => false) 250 250 c2_state.dll_hrtimer_head).1.dropped = [] ∧
    (lws_hrtimer_service (fun i => (c2_state.wsi i).hasProtocol)
        (fun _ => false) 250 250 c2_state.dll_hrtimer_head).1.closed = [] ∧
    (lws_hrtimer_service (fun i => (c2_state.wsi i).hasProtocol)
        (fun _ => false) 250 250 c2_state.dll_hrtimer_head).2 = 50 := by
  decide

/-- C3: after any sequence of lws_set_timer_usecs calls, with any mix of
delays and cancels and no intervening sweep, starting from a per-thread
context whose deadline queue is sorted, the deadline queue read head to tail
has non-decreasing pending_timer deadlines. -/
theorem c3_queue_sorted (ops : List SchedOp) (st : PtState)
    (h : QueueSorted st.dll_hrtimer_head) :
    QueueSorted (applySched ops st).dll_hrtimer_head := by
  induction ops generalizing st with
  | nil => exact h
  | cons o os ih => exact ih _ (set_timer_usecs_sorted o.now o.id o.us st h)

/-- Witness for c3_queue_sorted on a concrete schedule/cancel sequence from
the empty context. -/
theorem c3_queue_sorted_witness :
    QueueSorted (applySched
      [⟨0, 1, 300⟩, ⟨0, 2, 100⟩, ⟨5, 1, -1⟩, ⟨0, 3, 100⟩, ⟨7, 4, 250⟩]
      emptyPt).dll_hrtimer_head :=
  c3_queue_sorted _ emptyPt (by simp [emptyPt, QueueSorted])

/-- C4: lws_hrtimer_service returns 0 exactly when the deadline queue is
empty after the sweep; on a non-empty queue the return value is strictly
positive, and it is exactly 1 whenever the new head's deadline is at or
before the fresh clock read. -/
theorem c4_service_return_contract (proto cb : Nat → Bool) (t now2 : Int)
    (q : List (Nat × Int)) :
    ((lws_hrtimer_service proto cb t now2 q).2 = 0 ↔
      (lws_hrtimer_service proto cb t now2 q).1.queue = []) ∧
    ((lws_hrtimer_service proto cb t now2 q).1.queue ≠ [] →
      0 < (lws_hrtimer_service proto cb t now2 q).2) ∧
    (∀ i d rest,
      (lws_hrtimer_service proto cb t now2 q).1.queue = (i, d) :: rest →
      d ≤ now2 → (lws_hrtimer_service proto cb t now2 q).2 = 1) :=
  next_wake_contract now2 (hrtimer_sweep proto cb t q).queue

/-- Witness for c4_service_return_contract: a queue left non-empty by the
sweep yields a strictly positive return. -/
theorem c4_service_return_contract_witness :
    0 < (lws_hrtimer_service (fun _ => true) (fun _ => false) 50 50
      [(1, 100)]).2 :=
  (c4_service_return_contract (fun _ => true) (fun _ => false) 50 50
    [(1, 100)]).2.1 (by decide)

/-- C5: during a sweep every fired connection is unlinked from the deadline
queue strictly before its expiry callback runs: pairing each fired id with
the queue contents at the instant of its callback, the id is never a member
of that queue. -/
theorem c5_unlinked_before_callback (proto cb : Nat → Bool) (t : Int)
    (q : List (Nat × Int)) (hnd : (q.map Prod.fst).Nodup) :
    ∀ p ∈ (hrtimer_sweep proto cb t q).fired, p.1 ∉ p.2.map Prod.fst := by
  induction q with
  | nil =>
    intro p hp
    cases hp
  | cons e ws ih =>
    obtain ⟨i, d⟩ := e
    simp only [List.map_cons, List.nodup_cons] at hnd
    intro p hp
    by_cases hc : t < d
    · simp only [hrtimer_sweep, if_pos hc] at hp
      cases hp
    · by_cases hpr : proto i
      · by_cases hcb : cb i
        · simp only [hrtimer_sweep, if_neg hc, hpr, hcb, if_true] at hp
          rcases List.mem_cons.mp hp with rfl | hmem
          · simpa using hnd.1
          · exact ih hnd.2 p hmem
        · simp only [hrtimer_sweep, if_neg hc, hpr, hcb, if_true,
            Bool.false_eq_true, if_false] at hp
          rcases List.mem_cons.mp hp with rfl | hmem
          · simpa using hnd.1
          · exact ih hnd.2 p hmem
      · simp only [hrtimer_sweep, if_neg hc, hpr, Bool.false_eq_true,
          if_false] at hp
        exact ih hnd.2 p hp

/-- Witness for c5_unlinked_before_callback: connection 1 fires with the
queue holding only entry (2, 200), of which 1 is not a member. -/
theorem c5_unlinked_before_callback_witness :
    (1 : Nat) ∉ ([((2 : Nat), (200 : Int))].map Prod.fst) :=
  c5_unlinked_before_callback (fun _ => true) (fun _ => false) 250
    [(1, 100), (2, 200)] (by decide) (1, [(2, 200)]) (by decide)

/-- C6: a failing expiry callback only adds its own connection to the set
handed to the external close operation: the connections closed are exactly
the fired ones whose callback failed, while the remaining queue, the fired
entries and the dropped entries are identical for any two callback-result
functions, and the fired ids are exactly the due entries with a protocol,
so a failure never aborts the sweep of the remaining due entries. -/
theorem c6_callback_failure_isolated (proto cb cb' : Nat → Bool) (t : Int)
    (q : List (Nat × Int)) :
    (hrtimer_sweep proto cb t q).closed
      = ((hrtimer_sweep proto cb t q).fired.map Prod.fst).filter cb ∧
    (hrtimer_sweep proto cb t q).queue = (hrtimer_sweep proto cb' t q).queue ∧
    (hrtimer_sweep proto cb t q).fired = (hrtimer_sweep proto cb' t q).fired ∧
    (hrtimer_sweep proto cb t q).dropped
      = (hrtimer_sweep proto cb' t q).dropped ∧
    (hrtimer_sweep proto cb t q).fired.map Prod.fst
      = ((q.takeWhile (fun e => decide (e.2 ≤ t))).map Prod.fst).filter
          proto :=
  ⟨hrtimer_sweep_closed proto cb t q,
   (hrtimer_sweep_cb_invariant proto cb cb' t q).1,
   (hrtimer_sweep_cb_invariant proto cb cb' t q).2.1,
   (hrtimer_sweep_cb_invariant proto cb cb' t q).2.2,
   hrtimer_sweep_fired proto cb t q⟩

/-- C7: lws_set_timeout records the reason, the limit in seconds and the
current wall-clock time on the connection, removes the connection from the
registry, and relinks it at the registry head exactly when the reason is
nonzero. -/
theorem c7_set_timeout_contract (nowWall : Int) (id reason : Nat)
    (secs : Int) (st : PtState) :
    ((lws_set_timeout nowWall id reason secs st).wsi id).pending_timeout
      = reason ∧
    ((lws_set_timeout nowWall id reason secs st).wsi id).pending_timeout_limit
      = secs ∧
    ((lws_set_timeout nowWall id reason secs st).wsi id).pending_timeout_set
      = nowWall ∧
    (lws_set_timeout nowWall id reason secs st).dll_timeout_owner
      = (if reason = 0 then st.dll_timeout_owner.filter (fun i => i ≠ id)
         else id :: st.dll_timeout_owner.filter (fun i => i ≠ id)) := by
  by_cases h : reason = 0 <;> simp [lws_set_timeout, h]

/-- C8: cancelling a virtual-host timed callback by handle identity removes
and frees the entry and returns 0 when the handle is present, and returns 1
leaving the list unchanged when it is absent. -/
theorem c8_timed_callback_remove_contract (p : Nat) (l : List Nat) :
    (p ∈ l → (lws_timed_callback_remove p l).2 = 0 ∧
      (lws_timed_callback_remove p l).1 = l.erase p) ∧
    (p ∉ l → (lws_timed_callback_remove p l).2 = 1 ∧
      (lws_timed_callback_remove p l).1 = l) := by
  induction l with
  | nil => simp [lws_timed_callback_remove]
  | cons x xs ih =>
    by_cases hx : x = p
    · subst hx
      constructor
      · intro _
        simp [lws_timed_callback_remove, List.erase_cons_head]
      · intro h
        exact absurd (List.mem_cons_self x xs) h
    · constructor
      · intro hmem
        rcases List.mem_cons.mp hmem with h | h
        · exact absurd h.symm hx
        · have hr := ih.1 h
          simp [lws_timed_callback_remove, hx, hr.1, hr.2,
            List.erase_cons_tail, Ne.symm hx]
      · intro hmem
        have hx' : p ∉ xs := fun h => hmem (List.mem_cons_of_mem _ h)
        have hr := ih.2 hx'
        simp [lws_timed_callback_remove, hx, hr.1, hr.2]

/-- Witness for c8_timed_callback_remove_contract: removing handle 1 from
the one-element list finds it, and removing it from the empty remainder
does not. -/
theorem c8_timed_callback_remove_contract_witness :
    ((lws_timed_callback_remove 1 [1]).2 = 0 ∧
      (lws_timed_callback_remove 1 [1]).1 = [1].erase 1) ∧
    ((lws_timed_callback_remove 1 []).2 = 1 ∧
      (lws_timed_callback_remove 1 []).1 = []) :=
  ⟨(c8_timed_callback_remove_contract 1 [1]).1 (by decide),
   (c8_timed_callback_remove_contract 1 []).2 (by decide)⟩

/-- C9: arming or disarming the coarse timeout registry leaves the deadline
queue and every connection's pending_timer untouched, and scheduling or
cancelling a fine-grained deadline leaves the registry list and every
connection's timeout reason, limit and armed timestamp untouched. -/
theorem c9_registry_deadline_independence (nowWall now : Int)
    (id reason : Nat) (secs us : Int) (st : PtState) :
    (lws_set_timeout nowWall id reason secs st).dll_hrtimer_head
      = st.dll_hrtimer_head ∧
    (∀ i, ((lws_set_timeout nowWall id reason secs st).wsi i).pending_timer
      = (st.wsi i).pending_timer) ∧
    (lws_remove_from_timeout_list id st).dll_hrtimer_head
      = st.dll_hrtimer_head ∧
    (∀ i, ((lws_remove_from_timeout_list id st).wsi i).pending_timer
      = (st.wsi i).pending_timer) ∧
    (lws_set_timer_usecs now id us st).dll_timeout_owner
      = st.dll_timeout_owner ∧
    (∀ i,
      ((lws_set_timer_usecs now id us st).wsi i).pending_timeout
        = (st.wsi i).pending_timeout ∧
      ((lws_set_timer_usecs now id us st).wsi i).pending_timeout_limit
        = (st.wsi i).pending_timeout_limit ∧
      ((lws_set_timer_usecs now id us st).wsi i).pending_timeout_set
        = (st.wsi i).pending_timeout_set) := by
  refine ⟨?_, ?_, rfl, fun i => rfl, ?_, ?_⟩
  · by_cases h : reason = 0 <;> simp [lws_set_timeout, h]
  · intro i
    by_cases h : reason = 0 <;> by_cases hi : i = id <;>
      simp [lws_set_timeout, h, hi]
  · by_cases h : us = LWS_SET_TIMER_USEC_CANCEL <;>
      simp [lws_set_timer_usecs, h]
  · intro i
    by_cases h : us = LWS_SET_TIMER_USEC_CANCEL <;>
      by_cases hi : i = id <;> simp [lws_set_timer_usecs, h, hi]

/-- C10: a due connection with no protocol is removed from the deadline
queue but silently dropped: its callback is not invoked, it is not closed,
and the sweep still ends with the queue holding exactly the not-yet-due
suffix. -/
theorem c10_null_protocol_silently_dropped (proto cb : Nat → Bool) (t : Int)
    (q : List (Nat × Int)) (i : Nat) (d : Int)
    (hs : QueueSorted q) (hnd : (q.map Prod.fst).Nodup)
    (hmem : (i, d) ∈ q) (hdue : d ≤ t) (hp : proto i = false) :
    i ∈ (hrtimer_sweep proto cb t q).dropped ∧
    i ∉ (hrtimer_sweep proto cb t q).fired.map Prod.fst ∧
    i ∉ (hrtimer_sweep proto cb t q).closed ∧
    i ∉ (hrtimer_sweep proto cb t q).queue.map Prod.fst ∧
    (hrtimer_sweep proto cb t q).queue
      = q.dropWhile (fun e => decide (e.2 ≤ t)) := by
  have htw := mem_takeWhile_of_sorted_due hs hmem hdue
  have hid : i ∈ (q.takeWhile (fun e => decide (e.2 ≤ t))).map Prod.fst :=
    List.mem_map_of_mem Prod.fst htw
  refine ⟨?_, ?_, ?_, ?_, hrtimer_sweep_queue proto cb t q⟩
  · rw [hrtimer_sweep_dropped]
    exact List.mem_filter.mpr ⟨hid, by simp [hp]⟩
  · rw [hrtimer_sweep_fired]
    intro hin
    have hpt := (List.mem_filter.mp hin).2
    rw [hp] at hpt
    cases hpt
  · rw [hrtimer_sweep_closed]
    intro hin
    have hin' := List.mem_of_mem_filter hin
    rw [hrtimer_sweep_fired] at hin'
    have hpt := (List.mem_filter.mp hin').2
    rw [hp] at hpt
    cases hpt
  · rw [hrtimer_sweep_queue]
    intro hin
    have hsplit : q.map Prod.fst
        = (q.takeWhile (fun e => decide (e.2 ≤ t))).map Prod.fst
          ++ (q.dropWhile (fun e => decide (e.2 ≤ t))).map Prod.fst := by
      rw [← List.map_append, List.takeWhile_append_dropWhile]
    rw [hsplit] at hnd
    exact (List.nodup_append.mp hnd).2.2 hid hin

/-- Witness for c10_null_protocol_silently_dropped: connection 1, due with
no protocol, lands in the dropped list. -/
theorem c10_null_protocol_silently_dropped_witness :
    1 ∈ (hrtimer_sweep (fun i => i == 2) (fun _ => false) 250
      [(1, 100), (2, 200)]).dropped :=
  (c10_null_protocol_silently_dropped (fun i => i == 2) (fun _ => false) 250
    [(1, 100), (2, 200)] 1 100 (by unfold QueueSorted; decide) (by decide)
    (by decide) (by decide) (by decide)).1
